import Mathlib

/-!
Verification of the ar-engine marker-generation service.

The repository contains several near-duplicate Express/sharp service
variants plus a browser client:
* `src/unnamed/part_000` (first variant): memory storage, `resize(512,512,cover)`,
  `generateRealPattFile` (16×16, `kernel: nearest`, `fit: 'fill'`).
* `src/unnamed/part_000` (second variant): disk storage, `resize(512,512,inside)`,
  bordered `createTargetImage`, `generatePattFile` delegating to the random
  `generateSimplePattern`.
* `src/unnamed/part_001`: memory storage, `resize(512,512,inside)`, bordered
  `createTargetImage`, pixel-sampling `generatePattFile` (16×16, `fit: 'fill'`,
  no kernel option).
* `src/app.js`: a browser client (300×300 minimum check, MindAR compile) and a
  `.mind` server variant (no file filter, `resize(480,480,inside,withoutEnlargement)`,
  `compileMindARTarget` with a sentinel fallback).

Strings are modelled at the `List Char` level (`String.data`); buffers as
`List Nat` of byte values.
-/

namespace ArEngine

/-! ### Character-level string utilities -/

/-- Split a character list on a separator character.  `splitOnChar c s`
returns the (possibly empty) runs between occurrences of `c`; it always
returns at least one component, and a trailing separator yields a trailing
empty component — the semantics of JS `String.prototype.split` with a
single-character separator. -/
def splitOnChar (c : Char) : List Char → List (List Char)
  | [] => [[]]
  | x :: xs =>
    match splitOnChar c xs with
    | [] => if x = c then [[], []] else [[x]]
    | r :: rs => if x = c then [] :: r :: rs else (x :: r) :: rs

theorem splitOnChar_ne_nil (c : Char) (xs : List Char) : splitOnChar c xs ≠ [] := by
  cases xs with
  | nil => simp [splitOnChar]
  | cons x xs =>
    simp only [splitOnChar]
    rcases h : splitOnChar c xs with _ | ⟨r, rs⟩ <;> dsimp only <;> split <;> simp

theorem splitOnChar_cons_sep (c : Char) (xs : List Char) :
    splitOnChar c (c :: xs) = [] :: splitOnChar c xs := by
  simp only [splitOnChar]
  rcases h : splitOnChar c xs with _ | ⟨r, rs⟩
  · exact absurd h (splitOnChar_ne_nil c xs)
  · simp

theorem splitOnChar_cons_ne (c x : Char) (xs : List Char) (hx : x ≠ c) :
    splitOnChar c (x :: xs) =
      (x :: (splitOnChar c xs).headI) :: (splitOnChar c xs).tail := by
  simp only [splitOnChar]
  rcases h : splitOnChar c xs with _ | ⟨r, rs⟩
  · exact absurd h (splitOnChar_ne_nil c xs)
  · simp [hx]

theorem splitOnChar_of_not_mem (c : Char) (xs : List Char) (h : c ∉ xs) :
    splitOnChar c xs = [xs] := by
  induction xs with
  | nil => rfl
  | cons x xs ih =>
    have hx : x ≠ c := fun hc => h (hc ▸ List.mem_cons_self x xs)
    have hxs : c ∉ xs := fun hc => h (List.mem_cons_of_mem x hc)
    rw [splitOnChar_cons_ne c x xs hx, ih hxs]
    simp

/-- Splitting a list that starts with a separator-free prefix followed by a
separator peels off exactly that prefix. -/
theorem splitOnChar_append_sep (c : Char) (xs ys : List Char) (h : c ∉ xs) :
    splitOnChar c (xs ++ c :: ys) = xs :: splitOnChar c ys := by
  induction xs with
  | nil => simpa using splitOnChar_cons_sep c ys
  | cons x xs ih =>
    have hx : x ≠ c := fun hc => h (hc ▸ List.mem_cons_self x xs)
    have hxs : c ∉ xs := fun hc => h (List.mem_cons_of_mem x hc)
    rw [List.cons_append, splitOnChar_cons_ne c x _ hx, ih hxs]
    simp

/-- Join a list of lines, terminating every line (blank ones included) with a
newline character — the shape of the `pattern += row.join(' ') + '\n'`
accumulation in the source. -/
def joinLines (ls : List (List Char)) : List Char :=
  (ls.map (· ++ ['\n'])).flatten

theorem joinLines_nil : joinLines [] = [] := rfl

theorem joinLines_cons (l : List Char) (ls : List (List Char)) :
    joinLines (l :: ls) = l ++ '\n' :: joinLines ls := by
  simp [joinLines]

theorem joinLines_append (a b : List (List Char)) :
    joinLines (a ++ b) = joinLines a ++ joinLines b := by
  simp [joinLines]

/-- Splitting a newline-terminated line list on newlines recovers the lines,
plus one trailing empty component for the final newline. -/
theorem splitOnChar_joinLines (ls : List (List Char))
    (h : ∀ l ∈ ls, '\n' ∉ l) :
    splitOnChar '\n' (joinLines ls) = ls ++ [[]] := by
  induction ls with
  | nil => rfl
  | cons l ls ih =>
    rw [joinLines_cons, splitOnChar_append_sep '\n' l _ (h l (List.mem_cons_self l ls)),
      ih (fun l' hl' => h l' (List.mem_cons_of_mem l hl'))]
    rfl

/-! ### Decimal representation and 3-wide padded fields

`value.toString()` in the source produces the standard decimal representation;
the values are raw buffer bytes, so `0 ≤ value ≤ 255` and at most three digits
are ever needed.  `padStart(3, ' ')` left-pads with spaces to width 3. -/

/-- Standard decimal digit characters of a value below 1000 (the JS
`Number.prototype.toString` output for such an integer). -/
def natDigits (v : Nat) : List Char :=
  if v < 10 then [Char.ofNat (48 + v)]
  else if v < 100 then [Char.ofNat (48 + v / 10), Char.ofNat (48 + v % 10)]
  else [Char.ofNat (48 + v / 100), Char.ofNat (48 + v / 10 % 10), Char.ofNat (48 + v % 10)]

/-- JS `s.padStart(3, ' ')`: left-pad with spaces to length 3. -/
def pad3 (ds : List Char) : List Char :=
  List.replicate (3 - ds.length) ' ' ++ ds

/-- Read a nonempty all-digit character run back as a decimal integer;
any other run is not a field. -/
def digitsToNat? (ds : List Char) : Option Nat :=
  if ds ≠ [] ∧ ds.all Char.isDigit then
    some (ds.foldl (fun a c => a * 10 + (c.toNat - 48)) 0)
  else none

theorem natDigits_length_le (v : Nat) : (natDigits v).length ≤ 3 := by
  unfold natDigits
  split
  · simp
  · split <;> simp

theorem natDigits_ne_nil (v : Nat) : natDigits v ≠ [] := by
  unfold natDigits
  split
  · simp
  · split <;> simp

theorem pad3_length (ds : List Char) (h : ds.length ≤ 3) : (pad3 ds).length = 3 := by
  simp [pad3]
  omega

/-- Every character of the decimal run of a byte value is a digit character,
in particular neither a space nor a newline. -/
theorem natDigits_mem (v : Nat) (hv : v < 1000) (c : Char) (hc : c ∈ natDigits v) :
    ∃ d, d < 10 ∧ c = Char.ofNat (48 + d) := by
  unfold natDigits at hc
  split at hc
  · refine ⟨v, by omega, by simpa using hc⟩
  · split at hc
    · rcases List.mem_cons.mp hc with h | h
      · exact ⟨v / 10, by omega, h⟩
      · exact ⟨v % 10, by omega, by simpa using h⟩
    · rcases List.mem_cons.mp hc with h | h
      · exact ⟨v / 100, by omega, h⟩
      · rcases List.mem_cons.mp h with h | h
        · exact ⟨v / 10 % 10, by omega, h⟩
        · exact ⟨v % 10, by omega, by simpa using h⟩

theorem digitChar_facts (d : Nat) (hd : d < 10) :
    Char.ofNat (48 + d) ≠ ' ' ∧ Char.ofNat (48 + d) ≠ '\n' ∧
      (Char.ofNat (48 + d)).isDigit = true ∧ (Char.ofNat (48 + d)).toNat = 48 + d := by
  interval_cases d <;> exact ⟨by decide, by decide, by decide, by decide⟩

theorem space_not_mem_natDigits (v : Nat) (hv : v < 1000) : ' ' ∉ natDigits v := by
  intro hmem
  obtain ⟨d, hd, hc⟩ := natDigits_mem v hv ' ' hmem
  exact (digitChar_facts d hd).1 hc.symm

theorem newline_not_mem_natDigits (v : Nat) (hv : v < 1000) : '\n' ∉ natDigits v := by
  intro hmem
  obtain ⟨d, hd, hc⟩ := natDigits_mem v hv '\n' hmem
  exact (digitChar_facts d hd).2.1 hc.symm

theorem newline_not_mem_pad3 (v : Nat) (hv : v < 1000) : '\n' ∉ pad3 (natDigits v) := by
  intro hmem
  rcases List.mem_append.mp hmem with h | h
  · exact absurd (List.eq_of_mem_replicate h) (by decide)
  · exact newline_not_mem_natDigits v hv h

/-- Splitting a padded field followed by further text on spaces yields the
pad's empty components, then the digit run glued to the rest's first split. -/
theorem splitOnChar_pad_digits (k : Nat) (ds rest : List Char)
    (hds : ' ' ∉ ds) :
    splitOnChar ' ' (List.replicate k ' ' ++ ds ++ rest) =
      List.replicate k [] ++
        ((ds ++ (splitOnChar ' ' rest).headI) :: (splitOnChar ' ' rest).tail) := by
  induction k with
  | zero =>
    simp only [List.replicate, List.nil_append]
    induction ds with
    | nil =>
      rcases h : splitOnChar ' ' rest with _ | ⟨r, rs⟩
      · exact absurd h (splitOnChar_ne_nil _ rest)
      · simp [h]
    | cons d ds ih =>
      have hd : d ≠ ' ' := fun hc => hds (hc ▸ List.mem_cons_self d ds)
      have hds' : ' ' ∉ ds := fun hc => hds (List.mem_cons_of_mem d hc)
      rw [List.cons_append, splitOnChar_cons_ne ' ' d _ hd, ih hds']
      rcases h : splitOnChar ' ' rest with _ | ⟨r, rs⟩
      · exact absurd h (splitOnChar_ne_nil _ rest)
      · simp
  | succ k ih =>
    rw [List.replicate_succ, List.cons_append, List.cons_append,
      splitOnChar_cons_sep, ih, List.replicate_succ, List.cons_append]

/-- Parsing the decimal run of a byte value recovers the value. -/
theorem digitsToNat?_natDigits (v : Nat) (hv : v < 1000) :
    digitsToNat? (natDigits v) = some v := by
  have hall : (natDigits v).all Char.isDigit = true := by
    rw [List.all_eq_true]
    intro c hc
    obtain ⟨d, hd, hcd⟩ := natDigits_mem v hv c hc
    exact hcd ▸ (digitChar_facts d hd).2.2.1
  have hfold : (natDigits v).foldl (fun a c => a * 10 + (c.toNat - 48)) 0 = v := by
    unfold natDigits
    split
    · rename_i h
      simp [(digitChar_facts v h).2.2.2]
    · split <;> rename_i h h' <;>
        simp only [List.foldl] <;>
        rw [(digitChar_facts _ (by omega)).2.2.2, (digitChar_facts _ (by omega)).2.2.2]
      · omega
      · rw [(digitChar_facts _ (by omega)).2.2.2]
        omega
  simp [digitsToNat?, natDigits_ne_nil, hall, hfold]

/-! ### The pattern serializer

Model of `generatePattFile` (src/unnamed/part_001, lines 166–191) and of the
identical serialization loop of `generateRealPattFile` (src/unnamed/part_000,
lines 102–140).  The 16×16 raw resize result is a byte buffer `data` with
`info.channels` interleaved channels; the loops read
`data[(y*16+x)*info.channels + channel]`, pad each value with
`.toString().padStart(3, ' ')`, join each row's 16 fields with single spaces
(`row.join(' ')`), terminate each row with `'\n'`, and append one extra
`'\n'` after the first two channel blocks (`if (channel < 2) pattern += '\n'`). -/

/-- The buffer index `(y * 16 + x) * info.channels + channel`. -/
def pattIndex (channels ch y x : Nat) : Nat :=
  (y * 16 + x) * channels + ch

/-- The byte read `data[pixelIndex + channel]` (out-of-range reads modelled
with default 0; claim C10 shows they do not occur). -/
def byteAt (data : List Nat) (channels ch y x : Nat) : Nat :=
  data.getD (pattIndex channels ch y x) 0

/-- The 16 values of one serialized row. -/
def rowVals (data : List Nat) (channels ch y : Nat) : List Nat :=
  (List.range 16).map fun x => byteAt data channels ch y x

/-- JS `row.join(' ')`: concatenate fields with a single space between
consecutive fields. -/
def joinFields : List (List Char) → List Char
  | [] => []
  | [f] => f
  | f :: fs => f ++ ' ' :: joinFields fs

/-- One row's text: each value as `value.toString().padStart(3, ' ')`,
joined with single spaces. -/
def rowChars (vs : List Nat) : List Char :=
  joinFields (vs.map fun v => pad3 (natDigits v))

/-- One channel block: 16 rows, each newline-terminated. -/
def channelChars (data : List Nat) (channels ch : Nat) : List Char :=
  joinLines ((List.range 16).map fun y => rowChars (rowVals data channels ch y))

/-- The whole `.patt` text: channel blocks R, G, B in order, with one extra
newline (a blank line) after the R and G blocks only. -/
def pattChars (data : List Nat) (channels : Nat) : List Char :=
  channelChars data channels 0 ++ '\n' ::
    (channelChars data channels 1 ++ '\n' :: channelChars data channels 2)

/-- The `.patt` artifact as a string, as written by `fs.writeFile`. -/
def pattText (data : List Nat) (channels : Nat) : String :=
  ⟨pattChars data channels⟩

/-- The source grid arranged as the serializer emits it: 3 channel blocks of
16 rows of 16 values, row-major. -/
def pattGrid (data : List Nat) (channels : Nat) : List (List Nat) :=
  (List.range 3).flatMap fun ch => (List.range 16).map fun y => rowVals data channels ch y

/-! Row-level lemmas. -/

theorem byteAt_lt (data : List Nat) (channels ch y x bound : Nat)
    (hdata : ∀ v ∈ data, v < bound) (hbound : 0 < bound) :
    byteAt data channels ch y x < bound := by
  unfold byteAt
  rcases h : data.get? (pattIndex channels ch y x) with _ | v
  · rw [List.getD_eq_getD_get?, h]
    exact hbound
  · rw [List.getD_eq_getD_get?, h]
    exact hdata v (List.get?_mem h)

theorem rowVals_length (data : List Nat) (channels ch y : Nat) :
    (rowVals data channels ch y).length = 16 := by
  simp [rowVals]

theorem rowVals_lt (data : List Nat) (channels ch y bound : Nat)
    (hdata : ∀ v ∈ data, v < bound) (hbound : 0 < bound) :
    ∀ v ∈ rowVals data channels ch y, v < bound := by
  intro v hv
  simp only [rowVals, List.mem_map] at hv
  obtain ⟨x, _, rfl⟩ := hv
  exact byteAt_lt data channels ch y x bound hdata hbound

/-- Splitting one row on spaces and keeping the nonempty runs recovers the
decimal runs of the 16 values, in order. -/
theorem rowChars_fields (vs : List Nat) (hvs : ∀ v ∈ vs, v < 1000) :
    (splitOnChar ' ' (rowChars vs)).filter (fun l => !l.isEmpty) =
      vs.map natDigits := by
  induction vs with
  | nil => rfl
  | cons v vs ih =>
    have hv : v < 1000 := hvs v (List.mem_cons_self v vs)
    have hvs' : ∀ w ∈ vs, w < 1000 := fun w hw => hvs w (List.mem_cons_of_mem v hw)
    have hnospace : ' ' ∉ natDigits v := space_not_mem_natDigits v hv
    have hne : (natDigits v).isEmpty = false := by
      rcases h : natDigits v with _ | ⟨c, cs⟩
      · exact absurd h (natDigits_ne_nil v)
      · rfl
    cases vs with
    | nil =>
      show (splitOnChar ' ' (pad3 (natDigits v))).filter (fun l => !l.isEmpty) = _
      rw [show pad3 (natDigits v) =
            List.replicate (3 - (natDigits v).length) ' ' ++ natDigits v ++ [] by
          simp [pad3],
        splitOnChar_pad_digits _ _ _ hnospace]
      simp [splitOnChar, List.filter_replicate, hne]
    | cons w ws =>
      have hrow : rowChars (v :: w :: ws) =
          List.replicate (3 - (natDigits v).length) ' ' ++ natDigits v ++
            ' ' :: rowChars (w :: ws) := by
        simp [rowChars, joinFields, pad3]
      rw [hrow, splitOnChar_pad_digits _ _ _ hnospace, splitOnChar_cons_sep]
      simp only [List.headI, List.tail, List.append_nil, List.filter_append,
        List.filter_replicate, List.filter_cons, hne]
      rw [ih hvs']
      simp [hne]

theorem newline_not_mem_rowChars (vs : List Nat) (hvs : ∀ v ∈ vs, v < 1000) :
    '\n' ∉ rowChars vs := by
  induction vs with
  | nil => simp [rowChars, joinFields]
  | cons v vs ih =>
    have hv : v < 1000 := hvs v (List.mem_cons_self v vs)
    have hvs' : ∀ w ∈ vs, w < 1000 := fun w hw => hvs w (List.mem_cons_of_mem v hw)
    cases vs with
    | nil =>
      show '\n' ∉ pad3 (natDigits v)
      exact newline_not_mem_pad3 v hv
    | cons w ws =>
      intro hmem
      have hrow : rowChars (v :: w :: ws) =
          pad3 (natDigits v) ++ ' ' :: rowChars (w :: ws) := by
        simp [rowChars, joinFields]
      rw [hrow] at hmem
      rcases List.mem_append.mp hmem with h | h
      · exact newline_not_mem_pad3 v hv h
      · rcases List.mem_cons.mp h with h | h
        · exact absurd h (by decide)
        · exact ih hvs' h

theorem joinFields_length (fs : List (List Char)) (hne : fs ≠ [])
    (hlen : ∀ f ∈ fs, f.length = 3) :
    (joinFields fs).length = 4 * fs.length - 1 := by
  induction fs with
  | nil => exact absurd rfl hne
  | cons f fs ih =>
    cases fs with
    | nil =>
      show f.length = _
      rw [hlen f (List.mem_cons_self f [])]
      rfl
    | cons g gs =>
      have : joinFields (f :: g :: gs) = f ++ ' ' :: joinFields (g :: gs) := rfl
      rw [this]
      simp only [List.length_append, List.length_cons]
      rw [hlen f (List.mem_cons_self f _), ih (by simp)
        (fun f' hf' => hlen f' (List.mem_cons_of_mem f hf'))]
      simp only [List.length_cons]
      omega

/-- Each serialized row of byte values is exactly 63 characters:
16 fields of width 3 joined by 15 single spaces. -/
theorem rowChars_length (vs : List Nat) (hlen : vs.length = 16) :
    (rowChars vs).length = 63 := by
  unfold rowChars
  have hne : vs.map (fun v => pad3 (natDigits v)) ≠ [] := by
    intro hmap
    have hnil : vs = [] := by simpa using hmap
    rw [hnil] at hlen
    simp at hlen
  have hfl : ∀ f ∈ vs.map (fun v => pad3 (natDigits v)), f.length = 3 := by
    intro f hf
    simp only [List.mem_map] at hf
    obtain ⟨v, _, rfl⟩ := hf
    exact pad3_length _ (natDigits_length_le v)
  rw [joinFields_length _ hne hfl, List.length_map, hlen]

theorem rowChars_ne_nil (vs : List Nat) (hlen : vs.length = 16) :
    rowChars vs ≠ [] := by
  intro h
  have := rowChars_length vs hlen
  rw [h] at this
  simp at this

/-! ### Line structure of the pattern artifact -/

/-- The 16 row lines of one channel block. -/
def blockLines (data : List Nat) (channels ch : Nat) : List (List Char) :=
  (List.range 16).map fun y => rowChars (rowVals data channels ch y)

/-- All 50 lines of the artifact: 16 R rows, a blank line, 16 G rows, a blank
line, 16 B rows. -/
def pattLines (data : List Nat) (channels : Nat) : List (List Char) :=
  blockLines data channels 0 ++ [[]] ++ blockLines data channels 1 ++ [[]] ++
    blockLines data channels 2

theorem channelChars_eq (data : List Nat) (channels ch : Nat) :
    channelChars data channels ch = joinLines (blockLines data channels ch) := rfl

theorem pattChars_eq_joinLines (data : List Nat) (channels : Nat) :
    pattChars data channels = joinLines (pattLines data channels) := by
  simp [pattChars, pattLines, channelChars_eq, joinLines_append, joinLines]

theorem blockLines_length (data : List Nat) (channels ch : Nat) :
    (blockLines data channels ch).length = 16 := by
  simp [blockLines]

theorem pattLines_length (data : List Nat) (channels : Nat) :
    (pattLines data channels).length = 50 := by
  simp [pattLines, blockLines_length]

theorem mem_blockLines_newline_free (data : List Nat) (channels ch : Nat)
    (hdata : ∀ v ∈ data, v < 256) :
    ∀ l ∈ blockLines data channels ch, '\n' ∉ l := by
  intro l hl
  simp only [blockLines, List.mem_map] at hl
  obtain ⟨y, _, rfl⟩ := hl
  exact newline_not_mem_rowChars _ fun v hv =>
    lt_trans (rowVals_lt data channels ch y 256 hdata (by omega) v hv) (by omega)

theorem mem_blockLines_ne_nil (data : List Nat) (channels ch : Nat) :
    ∀ l ∈ blockLines data channels ch, l.isEmpty = false := by
  intro l hl
  simp only [blockLines, List.mem_map] at hl
  obtain ⟨y, _, rfl⟩ := hl
  have := rowChars_ne_nil (rowVals data channels ch y) (rowVals_length data channels ch y)
  rcases h : rowChars (rowVals data channels ch y) with _ | ⟨c, cs⟩
  · exact absurd h this
  · rfl

/-- Splitting the artifact text on newlines yields the 50 lines plus the
trailing empty component of the final newline. -/
theorem splitOnChar_pattChars (data : List Nat) (channels : Nat)
    (hdata : ∀ v ∈ data, v < 256) :
    splitOnChar '\n' (pattChars data channels) = pattLines data channels ++ [[]] := by
  rw [pattChars_eq_joinLines]
  refine splitOnChar_joinLines _ fun l hl => ?_
  simp only [pattLines, List.append_assoc, List.mem_append, List.mem_singleton] at hl
  rcases hl with h | h | h | h | h
  · exact mem_blockLines_newline_free data channels 0 hdata l h
  · simp [h]
  · exact mem_blockLines_newline_free data channels 1 hdata l h
  · simp [h]
  · exact mem_blockLines_newline_free data channels 2 hdata l h

/-- The line any in-range index denotes: rows at 0–15, 17–32 and 34–49, blank
separator lines exactly at 16 and 33. -/
def lineAt (data : List Nat) (channels i : Nat) : List Char :=
  if i < 16 then rowChars (rowVals data channels 0 i)
  else if i = 16 then []
  else if i < 33 then rowChars (rowVals data channels 1 (i - 17))
  else if i = 33 then []
  else rowChars (rowVals data channels 2 (i - 34))

/-- Position-wise description of the 50 lines. -/
theorem pattLines_getElem? (data : List Nat) (channels i : Nat) (hi : i < 50) :
    (pattLines data channels)[i]? = some (lineAt data channels i) := by
  have hb : ∀ ch j, j < 16 → (blockLines data channels ch)[j]? =
      some (rowChars (rowVals data channels ch j)) := by
    intro ch j hj
    simp [blockLines, List.getElem?_map, List.getElem?_range, hj]
  have hA := blockLines_length data channels 0
  have hB := blockLines_length data channels 1
  unfold pattLines lineAt
  rw [List.append_assoc, List.append_assoc, List.append_assoc]
  by_cases h0 : i < 16
  · rw [List.getElem?_append_left (by rw [hA]; exact h0), hb 0 i h0]
    simp [h0]
  · rw [List.getElem?_append_right (by rw [hA]; omega), hA]
    show ([] :: (blockLines data channels 1 ++
      ([] :: blockLines data channels 2)))[i - 16]? = _
    by_cases h1 : i = 16
    · subst h1
      simp
    · rw [show i - 16 = (i - 17) + 1 by omega, List.getElem?_cons_succ]
      by_cases h2 : i < 33
      · rw [List.getElem?_append_left (by rw [hB]; omega), hb 1 (i - 17) (by omega)]
        simp [h0, h1, h2]
      · rw [List.getElem?_append_right (by rw [hB]; omega), hB]
        by_cases h3 : i = 33
        · subst h3
          simp
        · rw [show i - 17 - 16 = (i - 34) + 1 by omega, List.getElem?_cons_succ,
            hb 2 (i - 34) (by omega)]
          simp [h0, h1, h2, h3]

theorem pattLines_filter_nonblank (data : List Nat) (channels : Nat) :
    (pattLines data channels).filter (fun l => !l.isEmpty) =
      blockLines data channels 0 ++ blockLines data channels 1 ++
        blockLines data channels 2 := by
  have hrow : ∀ ch, (blockLines data channels ch).filter (fun l => !l.isEmpty) =
      blockLines data channels ch := fun ch =>
    List.filter_eq_self.mpr fun l hl => by
      rw [mem_blockLines_ne_nil data channels ch l hl]
      rfl
  unfold pattLines
  simp only [List.filter_append, hrow]
  rfl

theorem pattLines_filter_blank (data : List Nat) (channels : Nat) :
    ((pattLines data channels).filter (fun l => l.isEmpty)).length = 2 := by
  have hrow : ∀ ch, (blockLines data channels ch).filter (fun l => l.isEmpty) = [] :=
    fun ch => List.filter_eq_nil_iff.mpr fun l hl => by
      rw [mem_blockLines_ne_nil data channels ch l hl]
      exact Bool.false_ne_true
  unfold pattLines
  simp only [List.filter_append, hrow]
  rfl

theorem lineAt_eq_nil_iff (data : List Nat) (channels i : Nat) :
    lineAt data channels i = [] ↔ (i = 16 ∨ i = 33) := by
  unfold lineAt
  have hne : ∀ ch y, rowChars (rowVals data channels ch y) ≠ [] := fun ch y =>
    rowChars_ne_nil _ (rowVals_length data channels ch y)
  by_cases h0 : i < 16
  · simp [h0, hne]
    omega
  · by_cases h1 : i = 16
    · simp [h0, h1]
    · by_cases h2 : i < 33
      · simp [h0, h1, h2, hne]
        omega
      · by_cases h3 : i = 33
        · simp [h0, h1, h2, h3]
        · simp [h0, h1, h2, h3, hne]

/--
**C1.** For every successfully processed upload, the textual pattern artifact
written by the pattern-generation function (`generatePattFile` in
src/unnamed/part_001 and the identical loop of `generateRealPattFile` in
src/unnamed/part_000) contains exactly 48 non-blank data rows, each consisting
of exactly 16 fields of width 3 joined by single spaces and terminated by a
newline, and exactly 2 blank separator lines — one after the R block (line
index 16) and one after the G block (line index 33) — with no blank line after
the last (B) block, regardless of the input image's size or aspect ratio
(i.e. for every raw byte buffer and channel count).
-/
theorem c1_patt_artifact_format (data : List Nat) (channels : Nat)
    (hdata : ∀ v ∈ data, v < 256) :
    (splitOnChar '\n' (pattText data channels).data).length = 51 ∧
    (splitOnChar '\n' (pattText data channels).data).getLast? = some [] ∧
    ((splitOnChar '\n' (pattText data channels).data).dropLast.filter
      (fun l => !l.isEmpty)).length = 48 ∧
    ((splitOnChar '\n' (pattText data channels).data).dropLast.filter
      (fun l => l.isEmpty)).length = 2 ∧
    (∀ i, i < 50 →
      (((splitOnChar '\n' (pattText data channels).data).getD i [] = []) ↔
        (i = 16 ∨ i = 33))) ∧
    (∀ i, i < 50 → i ≠ 16 → i ≠ 33 →
      ∃ fields, fields.length = 16 ∧ (∀ f ∈ fields, f.length = 3) ∧
        (splitOnChar '\n' (pattText data channels).data).getD i [] =
          joinFields fields) := by
  have hsplit : splitOnChar '\n' (pattText data channels).data =
      pattLines data channels ++ [[]] := splitOnChar_pattChars data channels hdata
  have hlen := pattLines_length data channels
  have hdrop : (pattLines data channels ++ [[]]).dropLast = pattLines data channels :=
    List.dropLast_concat
  have hgetD : ∀ i, i < 50 →
      (splitOnChar '\n' (pattText data channels).data).getD i [] =
        lineAt data channels i := by
    intro i hi
    rw [hsplit, List.getD_eq_getD_get?, List.get?_eq_getElem?,
      List.getElem?_append_left (by rw [hlen]; exact hi),
      pattLines_getElem? data channels i hi]
    rfl
  refine ⟨?_, ?_, ?_, ?_, ?_, ?_⟩
  · rw [hsplit, List.length_append, hlen]
    rfl
  · rw [hsplit]
    exact List.getLast?_concat _
  · rw [hsplit, hdrop, pattLines_filter_nonblank]
    simp [blockLines_length]
  · rw [hsplit, hdrop]
    exact pattLines_filter_blank data channels
  · intro i hi
    rw [hgetD i hi]
    exact lineAt_eq_nil_iff data channels i
  · intro i hi h16 h33
    rw [hgetD i hi]
    have hrow : ∀ ch y, ∃ fields, fields.length = 16 ∧
        (∀ f ∈ fields, f.length = 3) ∧
        rowChars (rowVals data channels ch y) = joinFields fields := by
      intro ch y
      refine ⟨(rowVals data channels ch y).map fun v => pad3 (natDigits v),
        by simp [rowVals_length], ?_, rfl⟩
      intro f hf
      simp only [List.mem_map] at hf
      obtain ⟨v, _, rfl⟩ := hf
      exact pad3_length _ (natDigits_length_le v)
    unfold lineAt
    by_cases h0 : i < 16
    · simpa [h0] using hrow 0 i
    · by_cases h2 : i < 33
      · simpa [h0, h16, h2] using hrow 1 (i - 17)
      · simpa [h0, h16, h2, h33] using hrow 2 (i - 34)

/-- Witness for C1 at a concrete input: the empty buffer with 3 channels
(all reads default to 0). -/
theorem c1_patt_artifact_format_witness :
    (∀ v ∈ ([] : List Nat), v < 256) ∧
    ((splitOnChar '\n' (pattText [] 3).data).length = 51 ∧
    (splitOnChar '\n' (pattText [] 3).data).getLast? = some [] ∧
    ((splitOnChar '\n' (pattText [] 3).data).dropLast.filter
      (fun l => !l.isEmpty)).length = 48 ∧
    ((splitOnChar '\n' (pattText [] 3).data).dropLast.filter
      (fun l => l.isEmpty)).length = 2 ∧
    (∀ i, i < 50 →
      (((splitOnChar '\n' (pattText [] 3).data).getD i [] = []) ↔
        (i = 16 ∨ i = 33))) ∧
    (∀ i, i < 50 → i ≠ 16 → i ≠ 33 →
      ∃ fields, fields.length = 16 ∧ (∀ f ∈ fields, f.length = 3) ∧
        (splitOnChar '\n' (pattText [] 3).data).getD i [] =
          joinFields fields)) :=
  ⟨by simp, c1_patt_artifact_format [] 3 (by simp)⟩

/-! ### Round-trip parsing (claim C5)

The spec's parse procedure: split the artifact on newlines, skip the blank
separator lines, and read each whitespace-separated field of each remaining
row as a decimal integer. -/

/-- Parse a pattern artifact back into a grid of rows of integers. -/
def parsePattGrid (s : String) : List (List Nat) :=
  ((splitOnChar '\n' s.data).filter (fun l => !l.isEmpty)).map fun l =>
    ((splitOnChar ' ' l).filter (fun f => !f.isEmpty)).filterMap digitsToNat?

theorem filterMap_digits_roundtrip (vs : List Nat) (hvs : ∀ v ∈ vs, v < 1000) :
    (vs.map natDigits).filterMap digitsToNat? = vs := by
  induction vs with
  | nil => rfl
  | cons v vs ih =>
    rw [List.map_cons, List.filterMap_cons,
      digitsToNat?_natDigits v (hvs v (List.mem_cons_self v vs)),
      ih fun w hw => hvs w (List.mem_cons_of_mem v hw)]

/-- Parsing one serialized row of byte values recovers the values. -/
theorem parseRow_rowChars (vs : List Nat) (hvs : ∀ v ∈ vs, v < 1000) :
    ((splitOnChar ' ' (rowChars vs)).filter (fun f => !f.isEmpty)).filterMap
      digitsToNat? = vs := by
  rw [rowChars_fields vs hvs, filterMap_digits_roundtrip vs hvs]

/--
**C5.** Round-trip: for every pattern artifact produced by the
pattern-generation function (`generatePattFile`, src/unnamed/part_001),
parsing its text back — splitting rows on newlines, skipping the blank
separator lines, and reading each whitespace-separated field as a decimal
integer — reproduces exactly 768 integer values (3 channels × 16 × 16), each
in [0,255], in a grid of identical shape to the source PatternGrid.
-/
theorem c5_patt_roundtrip (data : List Nat) (channels : Nat)
    (hdata : ∀ v ∈ data, v < 256) :
    parsePattGrid (pattText data channels) = pattGrid data channels ∧
    (pattGrid data channels).length = 48 ∧
    (∀ row ∈ pattGrid data channels, row.length = 16) ∧
    (pattGrid data channels).flatten.length = 768 ∧
    (∀ v ∈ (pattGrid data channels).flatten, v ≤ 255) := by
  have hvals : ∀ ch y, ∀ v ∈ rowVals data channels ch y, v < 1000 := by
    intro ch y v hv
    exact lt_trans (rowVals_lt data channels ch y 256 hdata (by omega) v hv) (by omega)
  have hgrid : pattGrid data channels =
      (List.range 3).flatMap fun ch =>
        (List.range 16).map fun y => rowVals data channels ch y := rfl
  have h48 : (pattGrid data channels).length = 48 := by
    rw [hgrid]
    simp [List.range_succ]
  have hrows : ∀ row ∈ pattGrid data channels, row.length = 16 := by
    intro row hrow
    rw [hgrid] at hrow
    simp only [List.mem_flatMap, List.mem_map, List.mem_range] at hrow
    obtain ⟨ch, _, y, _, rfl⟩ := hrow
    exact rowVals_length data channels ch y
  refine ⟨?_, h48, hrows, ?_, ?_⟩
  · unfold parsePattGrid
    rw [show (pattText data channels).data = pattChars data channels from rfl,
      splitOnChar_pattChars data channels hdata]
    have hfilter : (pattLines data channels ++ [[]]).filter (fun l => !l.isEmpty) =
        blockLines data channels 0 ++ blockLines data channels 1 ++
          blockLines data channels 2 := by
      rw [List.filter_append, pattLines_filter_nonblank]
      rfl
    rw [hfilter, hgrid]
    have hblock : ∀ ch, (blockLines data channels ch).map (fun l =>
        ((splitOnChar ' ' l).filter (fun f => !f.isEmpty)).filterMap digitsToNat?) =
        (List.range 16).map fun y => rowVals data channels ch y := by
      intro ch
      unfold blockLines
      rw [List.map_map]
      refine List.map_congr_left fun y _ => ?_
      exact parseRow_rowChars _ (hvals ch y)
    simp only [List.map_append, hblock]
    simp [List.range_succ]
  · have hmap : (pattGrid data channels).map List.length = List.replicate 48 16 := by
      rw [List.eq_replicate_iff]
      refine ⟨by simp [h48], ?_⟩
      intro b hb
      simp only [List.mem_map] at hb
      obtain ⟨row, hrow, rfl⟩ := hb
      exact hrows row hrow
    rw [List.length_flatten, hmap, List.sum_replicate]
    rfl
  · intro v hv
    rw [hgrid] at hv
    simp only [List.mem_flatten, List.mem_flatMap, List.mem_map, List.mem_range] at hv
    obtain ⟨row, ⟨ch, _, y, _, rfl⟩, hvrow⟩ := hv
    have := rowVals_lt data channels ch y 256 hdata (by omega) v hvrow
    omega

/-- Witness for C5 at a concrete input: the empty buffer with 3 channels. -/
theorem c5_patt_roundtrip_witness :
    (∀ v ∈ ([] : List Nat), v < 256) ∧
    (parsePattGrid (pattText [] 3) = pattGrid [] 3 ∧
    (pattGrid [] 3).length = 48 ∧
    (∀ row ∈ pattGrid [] 3, row.length = 16) ∧
    (pattGrid [] 3).flatten.length = 768 ∧
    (∀ v ∈ (pattGrid [] 3).flatten, v ≤ 255)) :=
  ⟨by simp, c5_patt_roundtrip [] 3 (by simp)⟩

/-! ### Buffer index safety (claim C10) -/

/--
**C10.** Every buffer index read by the pattern serialization loops is in
bounds: for every raw pixel buffer produced by the 16×16 resize with
`info.channels ≥ 3` and length `16*16*info.channels`, and for every channel
in 0..2, y in 0..15, x in 0..15, the index `(y*16+x)*info.channels + channel`
is strictly less than the buffer length, so each read yields a defined byte
in [0,255] and never an out-of-range (undefined) value.
-/
theorem c10_patt_index_in_bounds (data : List Nat) (channels ch y x : Nat)
    (hch : 3 ≤ channels) (hlen : data.length = 16 * 16 * channels)
    (hbytes : ∀ v ∈ data, v < 256) (hc : ch < 3) (hy : y < 16) (hx : x < 16) :
    pattIndex channels ch y x < data.length ∧
    data[pattIndex channels ch y x]? = some (byteAt data channels ch y x) ∧
    byteAt data channels ch y x < 256 := by
  have hidx : pattIndex channels ch y x < data.length := by
    have hcell : y * 16 + x + 1 ≤ 256 := by omega
    have hsucc : (y * 16 + x + 1) * channels = (y * 16 + x) * channels + channels :=
      Nat.succ_mul _ _
    have hmul : (y * 16 + x + 1) * channels ≤ 256 * channels :=
      Nat.mul_le_mul_right channels hcell
    unfold pattIndex
    omega
  refine ⟨hidx, ?_, byteAt_lt data channels ch y x 256 hbytes (by omega)⟩
  rw [List.getElem?_eq_getElem hidx]
  unfold byteAt
  rw [List.getD_eq_getElem data 0 hidx]

/-- Witness for C10 at a concrete input: a 768-byte buffer with 3 channels,
reading channel 2 of the bottom-right grid cell. -/
theorem c10_patt_index_in_bounds_witness :
    pattIndex 3 2 15 15 < (List.replicate 768 7).length ∧
    (List.replicate 768 7)[pattIndex 3 2 15 15]? =
      some (byteAt (List.replicate 768 7) 3 2 15 15) ∧
    byteAt (List.replicate 768 7) 3 2 15 15 < 256 :=
  c10_patt_index_in_bounds (List.replicate 768 7) 3 2 15 15 (by decide)
    (by rw [List.length_replicate])
    (fun v hv => by rw [List.eq_of_mem_replicate hv]; omega)
    (by decide) (by decide) (by decide)

/-! ### Resize calls and interpolation kernels (claims C3, C8)

The options objects passed to `sharp(...).resize(...)` across the variants,
transcribed from the source.  An omitted option is recorded as the library
default (`kernel` defaults to Lanczos-3, `withoutEnlargement` to `false`,
per the sharp documentation). -/

inductive FitMode where
  | cover
  | inside
  | fill
deriving DecidableEq

inductive ResizeKernel where
  | nearest
  | lanczos3
deriving DecidableEq

structure ResizeCall where
  width : Nat
  height : Nat
  fit : FitMode
  kernel : Option ResizeKernel
  withoutEnlargement : Bool
deriving DecidableEq

/-- sharp's documented default interpolation kernel when no `kernel` option is
passed to `resize`. -/
def sharpDefaultKernel : ResizeKernel := ResizeKernel.lanczos3

/-- The kernel a resize call actually uses: the requested one, or the library
default when the option is omitted. -/
def effectiveKernel (c : ResizeCall) : ResizeKernel :=
  c.kernel.getD sharpDefaultKernel

/-- The 16×16 resize of `generateRealPattFile` (src/unnamed/part_000 lines
105–111): `kernel: sharp.kernel.nearest, fit: 'fill'`. -/
def realPattResizeCall : ResizeCall :=
  ⟨16, 16, FitMode.fill, some ResizeKernel.nearest, false⟩

/-- The 16×16 resize of `generatePattFile` (src/unnamed/part_001 lines
169–172): `fit: 'fill'` with no `kernel` option. -/
def pattResizeCall : ResizeCall :=
  ⟨16, 16, FitMode.fill, none, false⟩

/-- The working-image resize of the part_001 handler (line 83):
`resize(512, 512, { fit: 'inside' })`, no `withoutEnlargement`. -/
def p1MainResizeCall : ResizeCall :=
  ⟨512, 512, FitMode.inside, none, false⟩

/-- The working-image resize of the `.mind` handler (src/app.js lines
450–456): `resize(480, 480, { fit: 'inside', withoutEnlargement: true })`. -/
def mindMainResizeCall : ResizeCall :=
  ⟨480, 480, FitMode.inside, none, true⟩

/-- The 16×16 grid resizes of the two pixel-sampling pattern generators. -/
def pattGenResizeCalls : List ResizeCall :=
  [realPattResizeCall, pattResizeCall]

/--
**C3 (counterexample).** The claim that every pattern-generation run
downsamples to the 16×16 grid with nearest-neighbor interpolation is false:
`generatePattFile` (src/unnamed/part_001) passes no `kernel` option, so the
library-default Lanczos-3 filtering kernel applies to its 16×16 resize.
-/
theorem c3_counterexample :
    ¬ ∀ c ∈ pattGenResizeCalls, effectiveKernel c = ResizeKernel.nearest := by
  intro h
  have := h pattResizeCall (by simp [pattGenResizeCalls])
  simp [effectiveKernel, pattResizeCall, sharpDefaultKernel] at this

/--
**C3 (amended).** Only `generateRealPattFile` (src/unnamed/part_000) requests
nearest-neighbor interpolation for the 16×16 grid resize; `generatePattFile`
(src/unnamed/part_001) omits the kernel option, so its grid values are
produced by the default Lanczos-3 filtering kernel rather than as direct
single-pixel samples.
-/
theorem c3_amended :
    effectiveKernel realPattResizeCall = ResizeKernel.nearest ∧
    realPattResizeCall.kernel = some ResizeKernel.nearest ∧
    pattResizeCall.kernel = none ∧
    effectiveKernel pattResizeCall = ResizeKernel.lanczos3 ∧
    ResizeKernel.lanczos3 ≠ ResizeKernel.nearest := by
  refine ⟨rfl, rfl, rfl, rfl, by decide⟩

/-! ### The random placeholder pattern generator (claim C2) -/

/-- Model of `generateSimplePattern` (src/unnamed/part_000, lines 332–351),
rows first: the disk-storage variant's `generatePattFile` ignores the image
entirely and fills the grid with `Math.floor(Math.random() * 256)` draws.
The successive `Math.random()` draws of one run are modelled as a stream
`rng`; cell `(i, y, x)` consumes draw `i*256 + y*16 + x` (emission order). -/
def simpleRowVals (rng : Nat → Nat) (i y : Nat) : List Nat :=
  (List.range 16).map fun x => rng (i * 256 + y * 16 + x)

/-- One channel block of the random pattern. -/
def simpleChannelChars (rng : Nat → Nat) (i : Nat) : List Char :=
  joinLines ((List.range 16).map fun y => rowChars (simpleRowVals rng i y))

/-- The whole random `.patt` text (same serialization shape as the
pixel-sampling generators). -/
def generateSimplePattern (rng : Nat → Nat) : String :=
  ⟨simpleChannelChars rng 0 ++ '\n' ::
    (simpleChannelChars rng 1 ++ '\n' :: simpleChannelChars rng 2)⟩

/--
**C2 (code evaluated at the failing input).** The disk-storage variant's
pattern generation is not a function of the input image bytes at all: its
output is determined by the `Math.random()` draw stream, so two runs on
identical input with different draw streams (here: the all-0 stream and the
all-1 stream, both valid `Math.floor(Math.random()*256)` sequences) produce
different artifact text.  This contradicts the documented intent — the spec
and the code's own comments call this path a demo stand-in — so the code,
not the claim, is wrong.
-/
theorem c2_simple_pattern_depends_on_rng :
    generateSimplePattern (fun _ => 0) ≠ generateSimplePattern (fun _ => 1) := by
  decide

/-! ### The external-compiler (.mind) variant and its fallback (claim C4) -/

/-- Log events observable server-side, abstracting the `console.log` /
`console.error` lines of `compileMindARTarget`. -/
inductive LogEvent where
  | compileError (msg : String)
  | fallbackMode
  | compileDone
deriving DecidableEq

/-- The fixed sentinel placeholder `Buffer.from('MINDAR_COMPILED')` written by
the fallback path. -/
def sentinelBytes : List Nat := "MINDAR_COMPILED".data.map Char.toNat

/-- Outcome of the inner compile pathway of `compileMindARTarget`: either the
exported compiled data, or a thrown exception (missing native dependency,
compile error, canvas failure — anything inside the `try`). -/
inductive CompileOutcome where
  | ok (data : List Nat)
  | thrown (msg : String)

/-- `compileMindARTarget` (src/app.js lines 491–528): returns the bytes
written at the output path and the log events emitted.  A thrown inner
exception is caught: the failure is logged and the sentinel placeholder is
written instead; nothing is re-thrown. -/
def compileMindARTarget (outcome : CompileOutcome) : List Nat × List LogEvent :=
  match outcome with
  | .ok d => (d, [LogEvent.compileDone])
  | .thrown msg => (sentinelBytes, [LogEvent.compileError msg, LogEvent.fallbackMode])

/-- A JSON response of the `.mind` handler: HTTP status and the `success`
flag of the body. -/
structure MindResponse where
  status : Nat
  success : Bool
deriving DecidableEq

/-- The `.mind` variant's `/api/generate-marker` handler (src/app.js lines
440–488), as a function of the request's upload (present or not), the sharp
optimization outcome, and the compile-pathway outcome.  Returns the response,
the bytes written at the `.mind` output path (none when that step is never
reached), and the log events of the compile step. -/
def generateMarkerMind (file : Option (List Nat))
    (optimize : Except String (List Nat)) (outcome : CompileOutcome) :
    MindResponse × Option (List Nat) × List LogEvent :=
  match file with
  | none => (⟨400, false⟩, none, [])
  | some _ =>
    match optimize with
    | .error _ => (⟨500, false⟩, none, [])
    | .ok _ =>
      let r := compileMindARTarget outcome
      (⟨200, true⟩, some r.1, r.2)

/--
**C4.** For every request in the external-compiler (.mind) variant, if the
tracking-compiler step throws, the request handler still returns the success
response: the fixed sentinel placeholder is written at the output path, the
failure is only logged, and no error response is sent to the caller solely
due to that failure.
-/
theorem c4_mind_fallback (file buf : List Nat) (msg : String) :
    generateMarkerMind (some file) (Except.ok buf) (CompileOutcome.thrown msg) =
      (⟨200, true⟩, some sentinelBytes,
        [LogEvent.compileError msg, LogEvent.fallbackMode]) := rfl

/-! ### The bordered target image (claim C6) -/

structure Color where
  r : Nat
  g : Nat
  b : Nat
deriving DecidableEq

def black : Color := ⟨0, 0, 0⟩
def white : Color := ⟨255, 255, 255⟩

/-- `const borderSize = 50` (src/unnamed/part_001 line 124). -/
def borderSize : Nat := 50

/-- `const imageSize = 412` (src/unnamed/part_001 line 125). -/
def imageSize : Nat := 412

/-- The canvas dimensions of `sharp({ create: { width: 512, height: 512 … } })`. -/
def canvasSize : Nat := 512

/-- The rendered SVG border: a black 512×512 rectangle, then a white 432×432
rectangle at (40,40), painter's order. -/
def svgBorderPixel (x y : Nat) : Color :=
  if 40 ≤ x ∧ x < 40 + 432 ∧ 40 ≤ y ∧ y < 40 + 432 then white else black

/-- One `composite` layer drawn over a base: where the layer has a pixel it
wins, elsewhere the base shows through. -/
def overlay (base : Nat → Nat → Color) (layer : Nat → Nat → Option Color) :
    Nat → Nat → Color :=
  fun x y => (layer x y).getD (base x y)

/-- The SVG layer composited at `top: 0, left: 0`, spanning the whole canvas. -/
def svgLayer (x y : Nat) : Option Color :=
  if x < 512 ∧ y < 512 then some (svgBorderPixel x y) else none

/-- The resized image layer composited at `top: borderSize, left: borderSize`,
spanning `imageSize × imageSize`. -/
def imageLayer (img : Nat → Nat → Color) (x y : Nat) : Option Color :=
  if borderSize ≤ x ∧ x < borderSize + imageSize ∧
      borderSize ≤ y ∧ y < borderSize + imageSize then
    some (img (x - borderSize) (y - borderSize))
  else none

structure TargetImage where
  width : Nat
  height : Nat
  pixel : Nat → Nat → Color

/-- `createTargetImage` (src/unnamed/part_001 lines 123–163): a 512×512
white-background canvas, the SVG border layer, then the 412×412 cover-resized
source image at (50,50). -/
def createTargetImage (resizedImg : Nat → Nat → Color) : TargetImage :=
  ⟨512, 512, overlay (overlay (fun _ _ => white) svgLayer) (imageLayer resizedImg)⟩

/--
**C6.** For every valid input in the bordered-target variant, the produced
target canvas is exactly 512×512; the border region at the canvas bounds is
the solid border color (black) up to the fixed border width (40px); and the
working image, resized to `canvasSize - 2*borderSize` = 412 pixels, is
overlaid inset by `borderSize` = 50 from each edge, so the pixel at the image
inset origin matches the resized source image.
-/
theorem c6_bordered_target (img : Nat → Nat → Color) :
    (createTargetImage img).width = 512 ∧
    (createTargetImage img).height = 512 ∧
    imageSize = canvasSize - 2 * borderSize ∧
    (∀ x y, x < 512 → y < 512 →
      (x < 40 ∨ y < 40 ∨ 472 ≤ x ∨ 472 ≤ y) →
      (createTargetImage img).pixel x y = black) ∧
    (createTargetImage img).pixel borderSize borderSize = img 0 0 := by
  refine ⟨rfl, rfl, rfl, ?_, ?_⟩
  · intro x y hx hy hborder
    show overlay (overlay (fun _ _ => white) svgLayer) (imageLayer img) x y = black
    have himg : imageLayer img x y = none := by
      unfold imageLayer borderSize imageSize
      rw [if_neg]
      omega
    have hsvg : svgLayer x y = some black := by
      unfold svgLayer svgBorderPixel
      rw [if_pos ⟨hx, hy⟩, if_neg]
      omega
    unfold overlay
    rw [himg, hsvg]
    rfl
  · show overlay (overlay (fun _ _ => white) svgLayer) (imageLayer img) 50 50 = _
    have himg : imageLayer img 50 50 = some (img 0 0) := by
      unfold imageLayer borderSize imageSize
      rw [if_pos]
      omega
    unfold overlay
    rw [himg]
    rfl

/-- Witness for C6 at a concrete input: the all-white resized image; the
corner pixel is border-black and the inset-origin pixel is the image's. -/
theorem c6_bordered_target_witness :
    (createTargetImage fun _ _ => white).pixel 0 0 = black ∧
    (createTargetImage fun _ _ => white).pixel borderSize borderSize = white :=
  ⟨(c6_bordered_target fun _ _ => white).2.2.2.1 0 0 (by omega) (by omega)
      (Or.inl (by omega)),
    (c6_bordered_target fun _ _ => white).2.2.2.2⟩

/-! ### Upload filtering (claim C7) -/

/-- Upload metadata seen by multer's `fileFilter`: the client-supplied
filename and declared MIME type. -/
structure UploadFileMeta where
  originalname : String
  mimetype : String

/-- `needle` occurs at the start of `haystack`. -/
def startsWithSeq : List Char → List Char → Bool
  | [], _ => true
  | _ :: _, [] => false
  | a :: ps, b :: ss => a = b && startsWithSeq ps ss

/-- `needle` occurs somewhere inside `haystack` (substring containment). -/
def containsSeq (needle : List Char) : List Char → Bool
  | [] => needle.isEmpty
  | c :: rest => startsWithSeq needle (c :: rest) || containsSeq needle rest

/-- The regex test `/jpeg|jpg|png/.test(s)`: the pattern is unanchored, so it
matches when any alternative occurs anywhere in the string. -/
def allowedTypesTest (cs : List Char) : Bool :=
  containsSeq "jpeg".data cs || containsSeq "jpg".data cs ||
    containsSeq "png".data cs

/-- Node's `path.extname` for a plain filename (no directory separators):
the suffix from the last dot, empty when there is no dot or the name is a
dotfile. -/
def extnameChars (cs : List Char) : List Char :=
  let tail := cs.reverse.takeWhile (fun c => c ≠ '.')
  if ('.' ∈ cs) ∧ tail.length + 1 < cs.length then '.' :: tail.reverse
  else []

/-- The `fileFilter` of the `.patt` variants (src/unnamed/part_000 lines
20–27 and 192–202, src/unnamed/part_001 lines 28–37): accept iff both the
lowercased extension and the declared MIME type pass the regex test. -/
def pattVariantFileFilter (f : UploadFileMeta) : Bool :=
  allowedTypesTest ((extnameChars f.originalname.data).map Char.toLower) &&
    allowedTypesTest f.mimetype.data

/-- The multer configuration of the `.mind` variant (src/app.js lines
412–416) has no `fileFilter` at all: an upload is accepted whenever it is
within the 10 MiB size limit, whatever its extension or MIME type. -/
def mindVariantUploadAccepts (f : UploadFileMeta) (size : Nat) : Bool :=
  size ≤ 10 * 1024 * 1024

/--
**C7 (counterexample).** The claim that every upload whose extension or MIME
type is not JPEG/PNG is rejected by the upload filter is false for the
`.mind` variant: its multer configuration has no `fileFilter`, so a small GIF
upload (`photo.gif`, `image/gif`) — neither extension nor MIME in the allowed
set — is accepted and proceeds to decoding.
-/
theorem c7_counterexample :
    mindVariantUploadAccepts ⟨"photo.gif", "image/gif"⟩ 1000 = true ∧
    allowedTypesTest ((extnameChars "photo.gif".data).map Char.toLower) = false ∧
    allowedTypesTest "image/gif".data = false := by
  refine ⟨rfl, ?_, ?_⟩ <;> decide

/--
**C7 (amended).** In the `.patt` variants, the filter accepts an upload
exactly when both the lowercased filename extension and the declared MIME
type contain "jpeg", "jpg" or "png" as a substring (an unanchored regex, so
a non-PNG extension such as `.xpng` passes); a genuine mismatch such as a
GIF is rejected before any decoding.  The `.mind` variant applies no
content-type filter: it accepts any upload within the 10 MiB size limit.
-/
theorem c7_amended :
    (∀ f : UploadFileMeta, pattVariantFileFilter f =
      (allowedTypesTest ((extnameChars f.originalname.data).map Char.toLower) &&
        allowedTypesTest f.mimetype.data)) ∧
    pattVariantFileFilter ⟨"photo.gif", "image/gif"⟩ = false ∧
    pattVariantFileFilter ⟨"photo.xpng", "image/png"⟩ = true ∧
    (∀ f : UploadFileMeta, ∀ size : Nat,
      mindVariantUploadAccepts f size = decide (size ≤ 10 * 1024 * 1024)) := by
  exact ⟨fun f => rfl, by decide, by decide, fun f size => rfl⟩

/-! ### The "inside" fit mode and enlargement (claim C8) -/

/-- Round-half-up division. -/
def roundDiv (a b : Nat) : Nat := (2 * a + b) / (2 * b)

/-- Output dimensions of a sharp resize with `fit: 'inside'` (per the sharp
documentation the spec's fit-mode glossary refers to): scale to the largest
size fitting within the target box while preserving aspect ratio; when
`withoutEnlargement` is set and the source already fits, keep the source
dimensions. -/
def fitInsideDims (srcW srcH tW tH : Nat) (we : Bool) : Nat × Nat :=
  if we ∧ srcW ≤ tW ∧ srcH ≤ tH then (srcW, srcH)
  else if tW * srcH ≤ tH * srcW then (tW, roundDiv (srcH * tW) srcW)
  else (roundDiv (srcW * tH) srcH, tH)

theorem roundDiv_le (a b c : Nat) (hb : 0 < b) (h : a ≤ b * c) :
    roundDiv a b ≤ c := by
  unfold roundDiv
  have h2 : 2 * a + b < 2 * b * (c + 1) := by nlinarith
  have := (Nat.div_lt_iff_lt_mul (by omega : 0 < 2 * b)).mpr
    (by nlinarith : 2 * a + b < (c + 1) * (2 * b))
  omega

/--
**C8 (counterexample).** The claim that the "inside" fit mode never upsamples
beyond the original resolution is false for the part_001 handler: its
`resize(512, 512, { fit: 'inside' })` call does not set
`withoutEnlargement`, so a 100×100 source is enlarged to 512×512 — both
output dimensions exceed the source dimensions.
-/
theorem c8_counterexample :
    p1MainResizeCall.fit = FitMode.inside ∧
    p1MainResizeCall.withoutEnlargement = false ∧
    fitInsideDims 100 100 p1MainResizeCall.width p1MainResizeCall.height
      p1MainResizeCall.withoutEnlargement = (512, 512) ∧
    ¬(512 ≤ 100) := by
  refine ⟨rfl, rfl, by decide, by decide⟩

/--
**C8 (amended).** Only the `.mind` variant's working-image resize
(`resize(480, 480, { fit: 'inside', withoutEnlargement: true })`) never
upsamples: a source already within the 480×480 working resolution is kept at
its own dimensions, and a source at least as large as the working resolution
in both dimensions is downsampled (output never exceeding the source).  The
part_001 `inside` resize omits `withoutEnlargement` and enlarges smaller
sources.
-/
theorem c8_amended :
    mindMainResizeCall = ⟨480, 480, FitMode.inside, none, true⟩ ∧
    (∀ srcW srcH : Nat, srcW ≤ 480 → srcH ≤ 480 →
      fitInsideDims srcW srcH mindMainResizeCall.width mindMainResizeCall.height
        mindMainResizeCall.withoutEnlargement = (srcW, srcH)) ∧
    (∀ srcW srcH : Nat, 0 < srcW → 0 < srcH → 480 ≤ srcW → 480 ≤ srcH →
      (fitInsideDims srcW srcH mindMainResizeCall.width mindMainResizeCall.height
        mindMainResizeCall.withoutEnlargement).1 ≤ srcW ∧
      (fitInsideDims srcW srcH mindMainResizeCall.width mindMainResizeCall.height
        mindMainResizeCall.withoutEnlargement).2 ≤ srcH) := by
  refine ⟨rfl, ?_, ?_⟩
  · intro srcW srcH hW hH
    show fitInsideDims srcW srcH 480 480 true = (srcW, srcH)
    unfold fitInsideDims
    rw [if_pos ⟨rfl, hW, hH⟩]
  · intro srcW srcH hW0 hH0 hW hH
    show (fitInsideDims srcW srcH 480 480 true).1 ≤ srcW ∧
      (fitInsideDims srcW srcH 480 480 true).2 ≤ srcH
    unfold fitInsideDims
    by_cases hfits : srcW ≤ 480 ∧ srcH ≤ 480
    · rw [if_pos ⟨rfl, hfits.1, hfits.2⟩]
      exact ⟨le_refl _, le_refl _⟩
    · rw [if_neg fun hc => hfits ⟨hc.2.1, hc.2.2⟩]
      by_cases hcase : 480 * srcH ≤ 480 * srcW
      · rw [if_pos hcase]
        refine ⟨by simpa using hW, ?_⟩
        have hdiv : roundDiv (srcH * 480) srcW ≤ 480 := by
          refine roundDiv_le _ _ _ hW0 ?_
          calc srcH * 480 ≤ srcW * 480 := by
                have : srcH ≤ srcW := by omega
                exact Nat.mul_le_mul_right 480 this
            _ = srcW * 480 := rfl
        simpa using le_trans hdiv hH
      · rw [if_neg hcase]
        refine ⟨?_, by simpa using hH⟩
        have hdiv : roundDiv (srcW * 480) srcH ≤ 480 := by
          refine roundDiv_le _ _ _ hH0 ?_
          have : srcW ≤ srcH := by omega
          exact Nat.mul_le_mul_right 480 this
        simpa using le_trans hdiv hW

/-- Witness for C8 (amended) at concrete inputs: a 100×100 source is kept at
100×100, and a 960×960 source is downsampled within 960×960. -/
theorem c8_amended_witness :
    fitInsideDims 100 100 mindMainResizeCall.width mindMainResizeCall.height
      mindMainResizeCall.withoutEnlargement = (100, 100) ∧
    (fitInsideDims 960 960 mindMainResizeCall.width mindMainResizeCall.height
      mindMainResizeCall.withoutEnlargement).1 ≤ 960 :=
  ⟨c8_amended.2.1 100 100 (by omega) (by omega),
    (c8_amended.2.2 960 960 (by omega) (by omega) (by omega) (by omega)).1⟩

/-! ### Minimum usable dimensions (claim C9) -/

/-- Outcome of decoding the uploaded bytes server-side. -/
inductive DecodeOutcome where
  | fail (msg : String)
  | ok (w h : Nat)

/-- Result of one part_001 `/api/generate-marker` request: HTTP status,
`success` flag, and whether the target and marker artifacts were written. -/
structure MarkerResult where
  status : Nat
  success : Bool
  targetWritten : Bool
  markerWritten : Bool
deriving DecidableEq

/-- The part_001 `/api/generate-marker` handler (src/unnamed/part_001 lines
71–120), as a function of upload presence and the decode outcome.  It
contains no dimension check of any kind: every decodable upload proceeds
through target and marker generation to a success response. -/
def generateMarkerP1 (filePresent : Bool) (decode : DecodeOutcome) : MarkerResult :=
  match filePresent with
  | false => ⟨400, false, false, false⟩
  | true =>
    match decode with
    | .fail _ => ⟨500, false, false, false⟩
    | .ok _ _ => ⟨200, true, true, true⟩

/-- Outcome of the browser client's start flow: whether an error was raised
and whether target compilation was reached. -/
structure ClientOutcome where
  errored : Bool
  compileStarted : Bool
deriving DecidableEq

/-- The browser client's start flow (src/app.js lines 120–174): after the
image loads, dimensions below 300×300 throw
(`'이미지가 너무 작습니다…'`) before `compileImageTarget` is invoked. -/
def clientStartFlow (w h : Nat) : ClientOutcome :=
  if w < 300 ∨ h < 300 then ⟨true, false⟩ else ⟨false, true⟩

/--
**C9 (counterexample).** The claim that every uploaded image smaller than the
minimum usable dimensions is rejected with a 4xx-equivalent error before any
artifact is written is false for the server: the part_001 handler has no
minimum-dimension check, so a decodable 10×10 upload is processed to
completion — both artifacts are written and a 200 success response is
returned.
-/
theorem c9_counterexample :
    generateMarkerP1 true (DecodeOutcome.ok 10 10) = ⟨200, true, true, true⟩ ∧
    (generateMarkerP1 true (DecodeOutcome.ok 10 10)).targetWritten = true ∧
    ¬(400 ≤ (generateMarkerP1 true (DecodeOutcome.ok 10 10)).status) := by
  refine ⟨rfl, rfl, by decide⟩

/--
**C9 (amended).** Only the browser client enforces a minimum dimension: an
image below 300×300 raises an error before target compilation is invoked.
The server handlers perform no minimum-dimension check — an arbitrarily
small decodable upload is processed to completion, with both artifacts
written and a success response.
-/
theorem c9_amended (w h : Nat) (hsmall : w < 300 ∨ h < 300) :
    clientStartFlow w h = ⟨true, false⟩ ∧
    generateMarkerP1 true (DecodeOutcome.ok w h) = ⟨200, true, true, true⟩ := by
  refine ⟨?_, rfl⟩
  unfold clientStartFlow
  rw [if_pos hsmall]

/-- Witness for C9 (amended) at a concrete input: a 10×10 image. -/
theorem c9_amended_witness :
    clientStartFlow 10 10 = ⟨true, false⟩ ∧
    generateMarkerP1 true (DecodeOutcome.ok 10 10) = ⟨200, true, true, true⟩ :=
  c9_amended 10 10 (Or.inl (by omega))

end ArEngine
